import Mathlib

/-
  Verification of the task-dependency scheduling engine
  (backend/src/services/project.service.ts).

  Dates are modelled at day granularity as integers, with day 0 a Sunday,
  so that d % 7 coincides with JavaScript Date.getDay()
  (0 = Sunday, 1 = Monday, ..., 5 = Friday, 6 = Saturday).
  Task and dependency ids are modelled as naturals.
-/

namespace GanttSpec

/-- Day-of-week test matching the source's weekend check
(getDay() equal to 0 or 6). -/
def isWeekend (d : Int) : Bool := d % 7 == 0 || d % 7 == 6

/-- One decrementing step of the loop in addWorkingDays
(project.service.ts): from position d, advance one calendar day, and keep
advancing while the day is a Saturday or Sunday.  The weekend is exactly
the pair Saturday (6 mod 7) then Sunday (0 mod 7), so at most two extra
advances occur, as written out below. -/
def nextWorkingDay (d : Int) : Int :=
  let d1 := d + 1
  if d1 % 7 == 6 then d1 + 2
  else if d1 % 7 == 0 then d1 + 1
  else d1

/-- The loop of addWorkingDays, indexed by the number of remaining
decrements of remainingDays. -/
def addWorkingDaysGo (d : Int) : Nat → Int
  | 0 => d
  | n + 1 => addWorkingDaysGo (nextWorkingDay d) n

/-- addWorkingDays from project.service.ts: starting from startDate, while
remainingDays > 0, advance one calendar day and decrement the counter only
on non-weekend days.  For a non-positive count the loop body never runs and
the input date is returned unchanged, which Int.toNat reproduces. -/
def addWorkingDays (startDate : Int) (days : Int) : Int :=
  addWorkingDaysGo startDate days.toNat

/-- One backward step skipping the weekend.  This is NOT in the source; it
is the spec's described retreat primitive, kept for comparison with the
source's arithmetic. -/
def prevWorkingDay (d : Int) : Int :=
  let d1 := d - 1
  if d1 % 7 == 0 then d1 - 2
  else if d1 % 7 == 6 then d1 - 1
  else d1

/-- Spec-side definition (spec section 4.2): moving backward N working days
steps back one calendar day at a time, skipping Saturday and Sunday.  The
source has no such primitive; this definition follows the spec's words and
is used only to compare the spec's FINISH_TO_FINISH / START_TO_FINISH
arithmetic with what the source computes. -/
def moveBackWorkingDaysSpec (d : Int) : Nat → Int
  | 0 => d
  | n + 1 => moveBackWorkingDaysSpec (prevWorkingDay d) n

lemma isWeekend_nextWorkingDay (d : Int) : isWeekend (nextWorkingDay d) = false := by
  simp only [nextWorkingDay, isWeekend]
  split_ifs with h1 h2 <;>
    simp only [beq_iff_eq, Bool.or_eq_false_iff, beq_eq_false_iff_ne, ne_eq] at * <;>
    constructor <;> omega

lemma isWeekend_addWorkingDaysGo (d : Int) (n : Nat) (hd : isWeekend d = false) :
    isWeekend (addWorkingDaysGo d n) = false := by
  induction n generalizing d with
  | zero => exact hd
  | succ k ih => exact ih (nextWorkingDay d) (isWeekend_nextWorkingDay d)

lemma addWorkingDaysGo_succ_weekday (d : Int) (n : Nat) :
    isWeekend (addWorkingDaysGo d (n + 1)) = false := by
  have : addWorkingDaysGo d (n + 1) = addWorkingDaysGo (nextWorkingDay d) n := rfl
  rw [this]
  exact isWeekend_addWorkingDaysGo _ n (isWeekend_nextWorkingDay d)

/-- A task record, restricted to the fields the scheduling engine reads and
writes (Prisma model Task). -/
structure Task where
  id : Nat
  projectId : Nat
  startDate : Int
  endDate : Int
  duration : Int
  isLocked : Bool
deriving Repr, DecidableEq

/-- The four dependency semantics (Prisma enum DependencyType). -/
inductive DependencyType where
  | FINISH_TO_START
  | START_TO_START
  | FINISH_TO_FINISH
  | START_TO_FINISH
deriving Repr, DecidableEq

/-- A dependency edge (Prisma model TaskDependency): taskId depends on
dependsOnId. -/
structure Dependency where
  taskId : Nat
  dependsOnId : Nat
  type : DependencyType
  lagDays : Int
deriving Repr, DecidableEq

/-- The stored state the engine reads and writes: the task rows and the
dependency-edge rows. -/
structure ProjectState where
  tasks : List Task
  deps : List Dependency
deriving Repr, DecidableEq

/-- findMany on TaskDependency with taskId = u, projected to dependsOnId:
the ids the task u directly depends on. -/
def successors (deps : List Dependency) (u : Nat) : List Nat :=
  (deps.filter (fun d => d.taskId == u)).map (fun d => d.dependsOnId)

lemma contains_true_iff (l : List Nat) (a : Nat) : l.contains a = true ↔ a ∈ l :=
  List.elem_iff

lemma contains_false_iff (l : List Nat) (a : Nat) : l.contains a = false ↔ ¬ a ∈ l := by
  rw [Bool.eq_false_iff]
  exact not_congr (contains_true_iff l a)

lemma filter_notMem_cons_length (deps : List Dependency) (c : Nat)
    (visited : List Nat) (hc : ¬ c ∈ visited) :
    (deps.filter (fun d => !visited.contains d.taskId)).length =
      (deps.filter (fun d => !(c :: visited).contains d.taskId)).length +
      (deps.filter (fun d => d.taskId == c)).length := by
  induction deps with
  | nil => simp
  | cons d rest ih =>
    simp only [List.filter_cons]
    by_cases hdc : d.taskId = c
    · have c1 : (!visited.contains d.taskId) = true := by
        rw [(contains_false_iff _ _).mpr (by rw [hdc]; exact hc)]; decide
      have c2 : ¬ ((!(c :: visited).contains d.taskId) = true) := by
        rw [(contains_true_iff _ _).mpr
          (by rw [hdc]; exact List.mem_cons_self c visited)]
        decide
      have c3 : (d.taskId == c) = true := beq_iff_eq.mpr hdc
      rw [if_pos c1, if_pos c3, if_neg c2]
      simp only [List.length_cons]
      omega
    · have c3 : ¬ ((d.taskId == c) = true) := by
        rw [beq_eq_false_iff_ne.mpr hdc]
        decide
      rw [if_neg c3]
      by_cases hv : d.taskId ∈ visited
      · have c1 : ¬ ((!visited.contains d.taskId) = true) := by
          rw [(contains_true_iff _ _).mpr hv]
          decide
        have c2 : ¬ ((!(c :: visited).contains d.taskId) = true) := by
          rw [(contains_true_iff _ _).mpr (List.mem_cons_of_mem c hv)]
          decide
        rw [if_neg c1, if_neg c2]
        exact ih
      · have hcv : ¬ d.taskId ∈ (c :: visited) := by
          intro hmem
          rcases List.mem_cons.mp hmem with h | h
          · exact hdc h
          · exact hv h
        have c1 : (!visited.contains d.taskId) = true := by
          rw [(contains_false_iff _ _).mpr hv]; decide
        have c2 : (!(c :: visited).contains d.taskId) = true := by
          rw [(contains_false_iff _ _).mpr hcv]; decide
        rw [if_pos c1, if_pos c2]
        simp only [List.length_cons]
        omega

/-- The breadth-first search loop of wouldCreateCircularDependency: pop
currentId from the queue; skip it if already visited; report true if it is
the original taskId; otherwise mark it visited and enqueue its
dependencies.  An empty queue reports false. -/
def bfsReaches (deps : List Dependency) (target : Nat)
    (visited : List Nat) (queue : List Nat) : Bool :=
  match queue with
  | [] => false
  | currentId :: rest =>
    if h : currentId ∈ visited then
      bfsReaches deps target visited rest
    else if currentId = target then
      true
    else
      bfsReaches deps target (currentId :: visited) (rest ++ successors deps currentId)
termination_by
  queue.length + (deps.filter (fun d => !visited.contains d.taskId)).length
decreasing_by
  · simp only [List.length_cons]
    omega
  · have hsplit := filter_notMem_cons_length deps currentId visited h
    have hsucc : (successors deps currentId).length =
        (deps.filter (fun d => d.taskId == currentId)).length := by
      simp [successors]
    simp only [List.length_append, List.length_cons, hsucc]
    omega

/-- wouldCreateCircularDependency from project.service.ts: a self
dependency is immediately circular; otherwise run a breadth-first search
from dependsOnId along depends-on edges looking for taskId. -/
def wouldCreateCircularDependency (deps : List Dependency)
    (taskId dependsOnId : Nat) : Bool :=
  if taskId = dependsOnId then true
  else bfsReaches deps taskId [] [dependsOnId]

/-- One depends-on step: v is among the tasks u directly depends on. -/
def DependsStep (deps : List Dependency) (u v : Nat) : Prop :=
  v ∈ successors deps u

/-- u (transitively, reflexively) depends on v through the edge list. -/
def Reaches (deps : List Dependency) (u v : Nat) : Prop :=
  Relation.ReflTransGen (DependsStep deps) u v

lemma reach_closed (deps : List Dependency) (C : List Nat)
    (hC : ∀ v ∈ C, ∀ w, DependsStep deps v w → w ∈ C)
    {s t : Nat} (hs : s ∈ C) (h : Reaches deps s t) : t ∈ C := by
  induction h with
  | refl => exact hs
  | tail _hab hbc ih => exact hC _ ih _ hbc

/-- Soundness of the search loop: a true answer exhibits a queue element
from which the target is reachable. -/
lemma bfsReaches_sound (deps : List Dependency) (target : Nat) :
    ∀ visited queue, bfsReaches deps target visited queue = true →
      ∃ s ∈ queue, Reaches deps s target := by
  intro visited queue
  induction visited, queue using bfsReaches.induct deps target with
  | case1 visited =>
    intro h
    rw [bfsReaches] at h
    cases h
  | case2 visited currentId rest hmem ih =>
    intro h
    rw [bfsReaches] at h
    simp only [dif_pos hmem] at h
    rcases ih h with ⟨s, hs, hr⟩
    exact ⟨s, List.mem_cons_of_mem _ hs, hr⟩
  | case3 visited rest hmem =>
    intro _h
    exact ⟨target, List.mem_cons_self _ _, Relation.ReflTransGen.refl⟩
  | case4 visited currentId rest hmem hne ih =>
    intro h
    rw [bfsReaches] at h
    simp only [dif_neg hmem, if_neg hne] at h
    rcases ih h with ⟨s, hs, hr⟩
    rcases List.mem_append.mp hs with hs | hs
    · exact ⟨s, List.mem_cons_of_mem _ hs, hr⟩
    · exact ⟨currentId, List.mem_cons_self _ _,
        Relation.ReflTransGen.head hs hr⟩

/-- The loop invariant of the search: every visited node is not the target
and all of its depends-on successors are visited or queued. -/
def BfsInv (deps : List Dependency) (target : Nat)
    (visited queue : List Nat) : Prop :=
  ∀ v ∈ visited, v ≠ target ∧ ∀ w, DependsStep deps v w → w ∈ visited ∨ w ∈ queue

/-- Completeness of the search loop: under the invariant, a false answer
means no queue or visited element reaches the target. -/
lemma bfsReaches_complete (deps : List Dependency) (target : Nat) :
    ∀ visited queue, BfsInv deps target visited queue →
      bfsReaches deps target visited queue = false →
      ∀ s, s ∈ queue ∨ s ∈ visited → ¬ Reaches deps s target := by
  intro visited queue
  induction visited, queue using bfsReaches.induct deps target with
  | case1 visited =>
    intro hinv _hf s hs hreach
    rcases hs with hs | hs
    · cases hs
    · have ht : target ∈ visited := by
        refine reach_closed deps visited ?_ hs hreach
        intro v hv w hw
        rcases (hinv v hv).2 w hw with h | h
        · exact h
        · cases h
      exact (hinv target ht).1 rfl
  | case2 visited currentId rest hmem ih =>
    intro hinv hf s hs hreach
    rw [bfsReaches] at hf
    simp only [dif_pos hmem] at hf
    have hinv' : BfsInv deps target visited rest := by
      intro v hv
      refine ⟨(hinv v hv).1, ?_⟩
      intro w hw
      rcases (hinv v hv).2 w hw with h | h
      · exact Or.inl h
      · rcases List.mem_cons.mp h with rfl | h
        · exact Or.inl hmem
        · exact Or.inr h
    refine ih hinv' hf s ?_ hreach
    rcases hs with hs | hs
    · rcases List.mem_cons.mp hs with rfl | hs
      · exact Or.inr hmem
      · exact Or.inl hs
    · exact Or.inr hs
  | case3 visited rest hmem =>
    intro _hinv hf
    rw [bfsReaches] at hf
    simp [dif_neg hmem] at hf
  | case4 visited currentId rest hmem hne ih =>
    intro hinv hf s hs hreach
    rw [bfsReaches] at hf
    simp only [dif_neg hmem, if_neg hne] at hf
    have hinv' : BfsInv deps target (currentId :: visited)
        (rest ++ successors deps currentId) := by
      intro v hv
      rcases List.mem_cons.mp hv with rfl | hv
      · refine ⟨hne, ?_⟩
        intro w hw
        exact Or.inr (List.mem_append_right rest hw)
      · refine ⟨(hinv v hv).1, ?_⟩
        intro w hw
        rcases (hinv v hv).2 w hw with h | h
        · exact Or.inl (List.mem_cons_of_mem _ h)
        · rcases List.mem_cons.mp h with rfl | h
          · exact Or.inl (List.mem_cons_self _ _)
          · exact Or.inr (List.mem_append_left _ h)
    refine ih hinv' hf s ?_ hreach
    rcases hs with hs | hs
    · rcases List.mem_cons.mp hs with rfl | hs
      · exact Or.inr (List.mem_cons_self _ _)
      · exact Or.inl (List.mem_append_left _ hs)
    · exact Or.inr (List.mem_cons_of_mem _ hs)

/-- C1: the cycle check returns true exactly when the proposed edge would
close a cycle: true whenever candidateTaskId equals candidateDependsOnId,
and otherwise true if and only if the breadth-first traversal from
candidateDependsOnId along depends-on edges reaches candidateTaskId; when
the reachable set is exhausted without finding it, the check returns
false. -/
theorem c1_cycle_check_correct (deps : List Dependency)
    (taskId dependsOnId : Nat) :
    wouldCreateCircularDependency deps taskId dependsOnId = true ↔
      (taskId = dependsOnId ∨ Reaches deps dependsOnId taskId) := by
  unfold wouldCreateCircularDependency
  by_cases heq : taskId = dependsOnId
  · simp [heq]
  · simp only [if_neg heq]
    constructor
    · intro h
      rcases bfsReaches_sound deps taskId [] [dependsOnId] h with ⟨s, hs, hr⟩
      rcases List.mem_singleton.mp hs with rfl
      exact Or.inr hr
    · intro h
      rcases h with h | h
      · exact absurd h heq
      · by_contra hfalse
        have hf : bfsReaches deps taskId [] [dependsOnId] = false :=
          Bool.eq_false_iff.mpr hfalse
        exact bfsReaches_complete deps taskId [] [dependsOnId]
          (fun v hv => absurd hv (List.not_mem_nil v)) hf dependsOnId
          (Or.inl (List.mem_singleton.mpr rfl)) h

/-- findUnique on Task by id (first matching row). -/
def getTask (tasks : List Task) (id : Nat) : Option Task :=
  tasks.find? (fun t => t.id == id)

/-- One element of the dependents fetch at the top of
autoScheduleDependentTasks: the dependent task row, together with its own
dependency list where each edge carries the referenced predecessor row.
All rows are read once, when the call starts (Prisma include). -/
structure DependentSnapshot where
  task : Task
  preds : List (Dependency × Task)
deriving Repr, DecidableEq

/-- The dependents fetch: every edge with dependsOnId = taskId names a
dependent task; for each, load the task row and its dependency list with
the predecessor rows included. -/
def snapshotDependents (s : ProjectState) (taskId : Nat) : List DependentSnapshot :=
  (s.deps.filter (fun d => d.dependsOnId == taskId)).filterMap (fun d =>
    match getTask s.tasks d.taskId with
    | none => none
    | some t =>
      some { task := t
             preds := (s.deps.filter (fun d2 => d2.taskId == t.id)).filterMap
               (fun d2 =>
                 match getTask s.tasks d2.dependsOnId with
                 | none => none
                 | some pt => some (d2, pt)) })

/-- The switch on dep.type in autoScheduleDependentTasks: the proposed
start date contributed by one predecessor edge. -/
def proposedStart (task : Task) (dep : Dependency) (depTask : Task) : Int :=
  match dep.type with
  | DependencyType.FINISH_TO_START =>
    addWorkingDays depTask.endDate (dep.lagDays + 1)
  | DependencyType.START_TO_START =>
    addWorkingDays depTask.startDate dep.lagDays
  | DependencyType.FINISH_TO_FINISH =>
    addWorkingDays (addWorkingDays depTask.endDate dep.lagDays)
      (-task.duration + 1)
  | DependencyType.START_TO_FINISH =>
    addWorkingDays (addWorkingDays depTask.startDate dep.lagDays)
      (-task.duration + 1)

/-- The body of the for-loop over the dependent's own edges: the running
value is replaced whenever a proposed start is strictly later
(proposedStart > newStartDate in the source). -/
def proposeFold (task : Task) (cur : Int) (preds : List (Dependency × Task)) : Int :=
  preds.foldl
    (fun c p => if c < proposedStart task p.1 p.2 then proposedStart task p.1 p.2 else c)
    cur

/-- The fold over the dependent's own edges: the running value is seeded
with the task's current startDate. -/
def computeNewStart (task : Task) (preds : List (Dependency × Task)) : Int :=
  proposeFold task task.startDate preds

/-- The dates written back for one dependent: the folded new start, and an
end date equal to the new start advanced by duration - 1 working days. -/
def scheduledDates (task : Task) (preds : List (Dependency × Task)) : Int × Int :=
  let newStartDate := computeNewStart task preds
  (newStartDate, addWorkingDays newStartDate (task.duration - 1))

/-- prisma.task.update writing the two date fields of the row with the
given id. -/
def writeDates (tasks : List Task) (id : Nat) (ns ne : Int) : List Task :=
  tasks.map (fun t =>
    if t.id == id then { t with startDate := ns, endDate := ne } else t)

/-- The for-loop over the dependents fetched at call start: locked tasks
are skipped entirely; each unlocked one has its dates recomputed from the
snapshot, written into the evolving state, and its own dependents
rescheduled recursively before the loop continues.  The recursive call
into the just-updated task's dependents is passed in as step. -/
def processDependents (step : ProjectState → Nat → ProjectState × List Nat) :
    List DependentSnapshot → ProjectState → ProjectState × List Nat
  | [], s => (s, [])
  | entry :: rest, s =>
    if entry.task.isLocked then
      processDependents step rest s
    else
      let dates := scheduledDates entry.task entry.preds
      let s1 : ProjectState :=
        { s with tasks := writeDates s.tasks entry.task.id dates.1 dates.2 }
      let r2 := step s1 entry.task.id
      let r3 := processDependents step rest r2.1
      (r3.1, entry.task.id :: (r2.2 ++ r3.2))

/-- autoScheduleDependentTasks from project.service.ts, with explicit fuel
bounding the recursion depth (the source recurses without a bound and
relies on the graph being acyclic).  Returns the final state together with
the list of dependent task ids that were written and recursed into, in
processing order. -/
def autoScheduleDependentTasks : Nat → ProjectState → Nat → ProjectState × List Nat
  | 0, s, _ => (s, [])
  | fuel + 1, s, taskId =>
    processDependents (autoScheduleDependentTasks fuel) (snapshotDependents s taskId) s

/-- addDependency from project.service.ts: both tasks must exist and share
a project; a circular dependency is rejected before any write; otherwise
the edge row is created and, unless the task is locked, auto-scheduling is
triggered on the predecessor. -/
def addDependency (fuel : Nat) (s : ProjectState) (taskId dependsOnId : Nat)
    (type : DependencyType) (lagDays : Int) : Except String ProjectState :=
  match getTask s.tasks taskId, getTask s.tasks dependsOnId with
  | some task, some dependsOnTask =>
    if task.projectId ≠ dependsOnTask.projectId then
      Except.error "Tasks must belong to the same project"
    else if wouldCreateCircularDependency s.deps taskId dependsOnId then
      Except.error "This dependency would create a circular reference"
    else
      let s1 : ProjectState :=
        { s with deps := s.deps ++ [⟨taskId, dependsOnId, type, lagDays⟩] }
      if task.isLocked then Except.ok s1
      else Except.ok (autoScheduleDependentTasks fuel s1 dependsOnId).1
  | _, _ => Except.error "Task not found"

/-- removeDependency from project.service.ts: deleteMany of the edges with
the given taskId and dependsOnId.  Nothing else happens: task rows are not
touched and no auto-scheduling is triggered. -/
def removeDependency (s : ProjectState) (taskId dependsOnId : Nat) : ProjectState :=
  { s with
    deps := s.deps.filter
      (fun d => !(d.taskId == taskId && d.dependsOnId == dependsOnId)) }

/-- Fixture builder: a task row with the given id, dates, duration and
lock flag, in project 0. -/
def exTask (i : Nat) (sd ed du : Int) (lk : Bool) : Task :=
  { id := i, projectId := 0, startDate := sd, endDate := ed,
    duration := du, isLocked := lk }

/-- Fixture builder: a FINISH_TO_START edge with zero lag. -/
def exFS (t o : Nat) : Dependency :=
  { taskId := t, dependsOnId := o,
    type := DependencyType.FINISH_TO_START, lagDays := 0 }

/-- The spec's example scenario after the user edit: task A (id 0) was
moved to Thu 4 .. Mon 8, duration 3; dependent B (id 1) still holds its
old dates Thu 4 .. Mon 8, duration 3, linked FINISH_TO_START with lag 0
(day numbering: 0 Sunday, 1 Monday, ..., 5 Friday, 6 Saturday, 8 the
following Monday). -/
def shiftExample : ProjectState :=
  { tasks := [exTask 0 4 8 3 false, exTask 1 4 8 3 false],
    deps := [exFS 1 0] }

/-- A diamond: B (id 1) and D (id 2) depend on A (id 0), and D also
depends on B; A was just moved to Thu 4 while B and D still hold stale
dates. -/
def diamondExample : ProjectState :=
  { tasks := [exTask 0 4 4 1 false, exTask 1 2 2 1 false, exTask 2 3 3 1 false],
    deps := [exFS 1 0, exFS 2 0, exFS 2 1] }

/-- A locked dependent: T (id 1) is locked and depends on P (id 0). -/
def lockedExample : ProjectState :=
  { tasks := [exTask 0 4 8 3 false, exTask 1 1 3 3 true],
    deps := [exFS 1 0] }

/-- A transitive chain: B (id 1) depends on C (id 2), which depends on
A (id 0), so B transitively depends on A. -/
def chainExample : ProjectState :=
  { tasks := [exTask 0 1 3 3 false, exTask 1 9 11 3 false, exTask 2 4 8 3 false],
    deps := [exFS 1 2, exFS 2 0] }

/-- Y (id 0) ends Mon 8; Z (id 1) depends on Y but still holds a stale
start (day 2); C (id 2) also depends on Y. -/
def removalExample : ProjectState :=
  { tasks := [exTask 0 4 8 3 false, exTask 1 2 2 1 false, exTask 2 20 20 1 false],
    deps := [exFS 1 0, exFS 2 0] }

lemma proposeFold_spec (task : Task) (preds : List (Dependency × Task)) :
    ∀ cur : Int,
      cur ≤ proposeFold task cur preds ∧
      (∀ p ∈ preds, proposedStart task p.1 p.2 ≤ proposeFold task cur preds) ∧
      (proposeFold task cur preds = cur ∨
        ∃ p ∈ preds, proposeFold task cur preds = proposedStart task p.1 p.2) := by
  induction preds with
  | nil =>
    intro cur
    refine ⟨le_refl cur, ?_, Or.inl rfl⟩
    intro p hp
    cases hp
  | cons p rest ih =>
    intro cur
    have hstep : proposeFold task cur (p :: rest) =
        proposeFold task
          (if cur < proposedStart task p.1 p.2 then proposedStart task p.1 p.2 else cur)
          rest := rfl
    set cur1 := if cur < proposedStart task p.1 p.2 then proposedStart task p.1 p.2 else cur with hcur1
    have hcur_le : cur ≤ cur1 := by
      rw [hcur1]
      by_cases hlt : cur < proposedStart task p.1 p.2
      · rw [if_pos hlt]; exact le_of_lt hlt
      · rw [if_neg hlt]
    have hp_le : proposedStart task p.1 p.2 ≤ cur1 := by
      rw [hcur1]
      by_cases hlt : cur < proposedStart task p.1 p.2
      · rw [if_pos hlt]
      · rw [if_neg hlt]; exact le_of_not_lt hlt
    rcases ih cur1 with ⟨h1, h2, h3⟩
    rw [hstep]
    refine ⟨le_trans hcur_le h1, ?_, ?_⟩
    · intro q hq
      rcases List.mem_cons.mp hq with rfl | hq
      · exact le_trans hp_le h1
      · exact h2 q hq
    · rcases h3 with h3 | ⟨q, hq, h3⟩
      · by_cases hlt : cur < proposedStart task p.1 p.2
        · refine Or.inr ⟨p, List.mem_cons_self _ _, ?_⟩
          rw [h3, hcur1, if_pos hlt]
        · refine Or.inl ?_
          rw [h3, hcur1, if_neg hlt]
      · exact Or.inr ⟨q, List.mem_cons_of_mem _ hq, h3⟩

lemma getTask_writeDates_ne (tasks : List Task) (id tid : Nat) (ns ne : Int)
    (hne : id ≠ tid) :
    getTask (writeDates tasks id ns ne) tid = getTask tasks tid := by
  induction tasks with
  | nil => rfl
  | cons t rest ih =>
    by_cases hti : t.id = id
    · have hwt : writeDates (t :: rest) id ns ne =
          { t with startDate := ns, endDate := ne } :: writeDates rest id ns ne := by
        simp [writeDates, hti]
      rw [hwt]
      have htid : ¬ t.id = tid := by rw [hti]; exact hne
      have h1 : getTask
          ({ t with startDate := ns, endDate := ne } :: writeDates rest id ns ne) tid =
          getTask (writeDates rest id ns ne) tid := by
        simp [getTask, List.find?_cons, htid]
      have h2 : getTask (t :: rest) tid = getTask rest tid := by
        simp [getTask, List.find?_cons, htid]
      rw [h1, h2]
      exact ih
    · have hwt : writeDates (t :: rest) id ns ne = t :: writeDates rest id ns ne := by
        simp [writeDates, hti]
      rw [hwt]
      by_cases htt : t.id = tid
      · simp [getTask, List.find?_cons, htt]
      · simp only [getTask, List.find?_cons] at *
        have hb : (t.id == tid) = false := beq_eq_false_iff_ne.mpr htt
        rw [hb]
        exact ih

lemma snapshot_task_found (s : ProjectState) (root : Nat) :
    ∀ e ∈ snapshotDependents s root, getTask s.tasks e.task.id = some e.task := by
  intro e he
  rcases List.mem_filterMap.mp he with ⟨d, _hd, hf⟩
  rcases hget : getTask s.tasks d.taskId with _ | t0
  · rw [hget] at hf
    cases hf
  · rw [hget] at hf
    cases hf
    have hid : t0.id = d.taskId := by
      have hfind := List.find?_some hget
      exact beq_iff_eq.mp hfind
    have hgoal : getTask s.tasks t0.id = some t0 := by rw [hid]; exact hget
    exact hgoal

lemma processDependents_locked_aux (tid : Nat) (t : Task) (hlock : t.isLocked = true)
    (step : ProjectState → Nat → ProjectState × List Nat)
    (hA : ∀ s root, getTask s.tasks tid = some t →
      getTask (step s root).1.tasks tid = some t ∧ ¬ tid ∈ (step s root).2) :
    ∀ l s, getTask s.tasks tid = some t →
      (∀ e ∈ l, e.task.id = tid → e.task = t) →
      getTask (processDependents step l s).1.tasks tid = some t ∧
        ¬ tid ∈ (processDependents step l s).2 := by
  intro l
  induction l with
  | nil =>
    intro s hs _hl
    refine ⟨?_, ?_⟩ <;> simp [processDependents, hs]
  | cons e rest ihl =>
    intro s hs hl
    by_cases hlk : e.task.isLocked
    · have hred : processDependents step (e :: rest) s =
          processDependents step rest s := by
        rw [processDependents, if_pos hlk]
      rw [hred]
      exact ihl s hs (fun e' he' => hl e' (List.mem_cons_of_mem _ he'))
    · have hne : e.task.id ≠ tid := by
        intro heq
        have := hl e (List.mem_cons_self _ _) heq
        rw [this] at hlk
        exact hlk hlock
      have hred : processDependents step (e :: rest) s =
          (let dates := scheduledDates e.task e.preds
           let s1 : ProjectState :=
             { s with tasks := writeDates s.tasks e.task.id dates.1 dates.2 }
           let r2 := step s1 e.task.id
           let r3 := processDependents step rest r2.1
           (r3.1, e.task.id :: (r2.2 ++ r3.2))) := by
        rw [processDependents, if_neg hlk]
      rw [hred]
      simp only []
      set dates := scheduledDates e.task e.preds with hdates
      set s1 : ProjectState :=
        { s with tasks := writeDates s.tasks e.task.id dates.1 dates.2 } with hs1
      have hs1get : getTask s1.tasks tid = some t := by
        rw [hs1]
        simpa using (getTask_writeDates_ne s.tasks e.task.id tid dates.1 dates.2 hne).symm ▸
          (getTask_writeDates_ne s.tasks e.task.id tid dates.1 dates.2 hne).trans hs
      rcases hA s1 e.task.id hs1get with ⟨hA1, hA2⟩
      rcases ihl (step s1 e.task.id).1 hA1
        (fun e' he' => hl e' (List.mem_cons_of_mem _ he')) with ⟨hP1, hP2⟩
      refine ⟨hP1, ?_⟩
      intro hmem
      rcases List.mem_cons.mp hmem with heq | hmem
      · exact hne heq.symm
      · rcases List.mem_append.mp hmem with hmem | hmem
        · exact hA2 hmem
        · exact hP2 hmem

lemma autoSchedule_locked_aux (tid : Nat) (t : Task) (hlock : t.isLocked = true) :
    ∀ fuel s root, getTask s.tasks tid = some t →
      getTask (autoScheduleDependentTasks fuel s root).1.tasks tid = some t ∧
        ¬ tid ∈ (autoScheduleDependentTasks fuel s root).2 := by
  intro fuel
  induction fuel with
  | zero =>
    intro s root hs
    refine ⟨?_, ?_⟩ <;> simp [autoScheduleDependentTasks, hs]
  | succ g ih =>
    intro s root hs
    have hred : autoScheduleDependentTasks (g + 1) s root =
        processDependents (autoScheduleDependentTasks g)
          (snapshotDependents s root) s := by
      rw [autoScheduleDependentTasks]
    rw [hred]
    refine processDependents_locked_aux tid t hlock
      (autoScheduleDependentTasks g) ih (snapshotDependents s root) s hs ?_
    intro e he heid
    have hfound := snapshot_task_found s root e he
    rw [heid, hs] at hfound
    exact (Option.some_injective _ hfound).symm

/-- C2: refuted on the source.  At a FINISH_TO_FINISH edge with lag 0,
predecessor endDate Monday (day 8) and dependent duration 3, the source
passes the negative count -duration + 1 to addWorkingDays, whose loop
never runs for non-positive counts, so the proposed start is day 8 itself
instead of the spec's backward-stepped Thursday (day 4). -/
theorem c2_ff_backward_ignored :
    proposedStart (exTask 1 1 3 3 false)
        { taskId := 1, dependsOnId := 0,
          type := DependencyType.FINISH_TO_FINISH, lagDays := 0 }
        (exTask 0 4 8 3 false) = 8 ∧
    moveBackWorkingDaysSpec
      (addWorkingDays (exTask 0 4 8 3 false).endDate 0) 2 = 4 ∧
    (8 : Int) ≠ 4 := by
  decide

/-- C3 counterexample: for start Monday (day 1) and duration 2, the
computed end is Tuesday (day 2), and moving it backward by duration - 1
working days with the source primitive (a negative count, which
addWorkingDays ignores) does not recover the start. -/
theorem c3_roundtrip_counterexample :
    addWorkingDays (addWorkingDays 1 (2 - 1)) (-(2 - 1)) ≠ (1 : Int) := by
  decide

/-- C3 amended: advancing a Friday by 1 working day yields the following
Monday and advancing by 0 working days is the identity, but addWorkingDays
returns its input unchanged for every non-positive count, so moving the
computed end backward by duration - 1 working days returns the end date
itself (recovering the start only when the duration is 1). -/
theorem c3_working_day_advance_amended :
    (∀ d : Int, d % 7 = 5 → addWorkingDays d 1 = d + 3) ∧
    (∀ d : Int, addWorkingDays d 0 = d) ∧
    (∀ d n : Int, n ≤ 0 → addWorkingDays d n = d) ∧
    (∀ s dur : Int, 1 ≤ dur →
      addWorkingDays (addWorkingDays s (dur - 1)) (-(dur - 1)) =
        addWorkingDays s (dur - 1)) := by
  have hnonpos : ∀ d n : Int, n ≤ 0 → addWorkingDays d n = d := by
    intro d n hn
    rw [addWorkingDays, Int.toNat_of_nonpos hn]
    rfl
  refine ⟨?_, ?_, hnonpos, ?_⟩
  · intro d hd
    have h6 : (d + 1) % 7 = 6 := by omega
    have hcond : ((d + 1) % 7 == 6) = true := beq_iff_eq.mpr h6
    show addWorkingDaysGo d 1 = d + 3
    show nextWorkingDay d = d + 3
    simp only [nextWorkingDay]
    rw [if_pos hcond]
    omega
  · intro d
    rfl
  · intro s dur hdur
    exact hnonpos _ _ (by omega)

/-- C3 amended, witness at concrete inputs: Friday day 5 advances to
Monday day 8; day 3 is fixed by a 0 or negative count; the duration 3
roundtrip returns the computed end unchanged. -/
theorem c3_amended_witness :
    addWorkingDays 5 1 = 8 ∧
    addWorkingDays 3 0 = 3 ∧
    addWorkingDays 3 (-2) = 3 ∧
    addWorkingDays (addWorkingDays 1 (3 - 1)) (-(3 - 1)) =
      addWorkingDays 1 (3 - 1) := by
  refine ⟨?_, c3_working_day_advance_amended.2.1 3,
    c3_working_day_advance_amended.2.2.1 3 (-2) (by norm_num),
    c3_working_day_advance_amended.2.2.2 1 3 (by norm_num)⟩
  have h := c3_working_day_advance_amended.1 5 (by decide)
  rw [h]
  norm_num

/-- C4: a FINISH_TO_START edge proposes the predecessor endDate advanced
by lagDays + 1 working days; the written end date is the written start
advanced by duration - 1 working days; and in the example scenario (A
moved to Thu 4 / Fri 5 / Mon 8, B duration 3, lag 0) propagation sets B
to start Tuesday day 9 and end Thursday day 11. -/
theorem c4_finish_to_start_propagation :
    (∀ (task : Task) (dep : Dependency) (depTask : Task),
      dep.type = DependencyType.FINISH_TO_START →
      proposedStart task dep depTask =
        addWorkingDays depTask.endDate (dep.lagDays + 1)) ∧
    (∀ (task : Task) (preds : List (Dependency × Task)),
      (scheduledDates task preds).2 =
        addWorkingDays (scheduledDates task preds).1 (task.duration - 1)) ∧
    (getTask (autoScheduleDependentTasks 3 shiftExample 0).1.tasks 1 =
        some (exTask 1 9 11 3 false) ∧
      (9 : Int) % 7 = 2 ∧ (11 : Int) % 7 = 4) := by
  refine ⟨?_, ?_, by decide⟩
  · intro task dep depTask htype
    simp [proposedStart, htype]
  · intro task preds
    rfl

/-- C4 witness: the FINISH_TO_START formula instantiated at the example
edge and rows. -/
theorem c4_finish_to_start_witness :
    proposedStart (exTask 1 4 8 3 false) (exFS 1 0) (exTask 0 4 8 3 false) =
      addWorkingDays (exTask 0 4 8 3 false).endDate ((exFS 1 0).lagDays + 1) :=
  c4_finish_to_start_propagation.1 (exTask 1 4 8 3 false) (exFS 1 0)
    (exTask 0 4 8 3 false) rfl

/-- C5: the new start written for a dependent is the maximum of its own
current startDate (the seed of the fold) and the proposed starts of its
predecessor edges, hence never earlier than the stored start date it was
read with. -/
theorem c5_new_start_is_seeded_max (task : Task)
    (preds : List (Dependency × Task)) :
    task.startDate ≤ computeNewStart task preds ∧
    (∀ p ∈ preds, proposedStart task p.1 p.2 ≤ computeNewStart task preds) ∧
    (computeNewStart task preds = task.startDate ∨
      ∃ p ∈ preds, computeNewStart task preds = proposedStart task p.1 p.2) :=
  proposeFold_spec task preds task.startDate

/-- C5 witness: the bound instantiated on the example dependent and its
single predecessor edge. -/
theorem c5_new_start_witness :
    (exTask 1 4 8 3 false).startDate ≤
      computeNewStart (exTask 1 4 8 3 false) [(exFS 1 0, exTask 0 4 8 3 false)] ∧
    proposedStart (exTask 1 4 8 3 false) (exFS 1 0) (exTask 0 4 8 3 false) ≤
      computeNewStart (exTask 1 4 8 3 false) [(exFS 1 0, exTask 0 4 8 3 false)] :=
  ⟨(c5_new_start_is_seeded_max (exTask 1 4 8 3 false)
      [(exFS 1 0, exTask 0 4 8 3 false)]).1,
   (c5_new_start_is_seeded_max (exTask 1 4 8 3 false)
      [(exFS 1 0, exTask 0 4 8 3 false)]).2.1
     (exFS 1 0, exTask 0 4 8 3 false) (List.mem_singleton.mpr rfl)⟩

/-- C6: a locked task row survives any auto-scheduling run unchanged, and
its id never appears among the tasks written and recursed into. -/
theorem c6_locked_untouched (fuel : Nat) (s : ProjectState) (root tid : Nat)
    (t : Task) (hget : getTask s.tasks tid = some t)
    (hlock : t.isLocked = true) :
    getTask (autoScheduleDependentTasks fuel s root).1.tasks tid = some t ∧
      ¬ tid ∈ (autoScheduleDependentTasks fuel s root).2 :=
  autoSchedule_locked_aux tid t hlock fuel s root hget

/-- C6 witness: rescheduling the predecessor of the locked task T (id 1)
leaves T's row unchanged and never recurses into it. -/
theorem c6_locked_untouched_witness :
    getTask (autoScheduleDependentTasks 3 lockedExample 0).1.tasks 1 =
      some (exTask 1 1 3 3 true) ∧
    ¬ 1 ∈ (autoScheduleDependentTasks 3 lockedExample 0).2 :=
  c6_locked_untouched 3 lockedExample 0 1 (exTask 1 1 3 3 true) (by decide) rfl

/-- C7: when the proposed edge would create a cycle, addDependency fails
with the circular-reference error before any edge is written or any task
mutated (the error is raised before the create and the auto-schedule
steps, so no successor state exists). -/
theorem c7_cycle_rejected_atomically (fuel : Nat) (s : ProjectState)
    (taskId dependsOnId : Nat) (task dependsOnTask : Task)
    (ty : DependencyType) (lag : Int)
    (htask : getTask s.tasks taskId = some task)
    (hdot : getTask s.tasks dependsOnId = some dependsOnTask)
    (hproj : task.projectId = dependsOnTask.projectId)
    (hcyc : wouldCreateCircularDependency s.deps taskId dependsOnId = true) :
    addDependency fuel s taskId dependsOnId ty lag =
      Except.error "This dependency would create a circular reference" := by
  unfold addDependency
  simp only [htask, hdot]
  rw [if_neg (fun hne => hne hproj), if_pos hcyc]

/-- C7 witness: B (id 1) transitively depends on A (id 0) through C
(id 2); proposing that A depend on B is rejected with the
circular-reference error. -/
theorem c7_cycle_rejected_witness :
    addDependency 3 chainExample 0 1 DependencyType.FINISH_TO_START 0 =
      Except.error "This dependency would create a circular reference" :=
  c7_cycle_rejected_atomically 3 chainExample 0 1
    (exTask 0 1 3 3 false) (exTask 1 9 11 3 false)
    DependencyType.FINISH_TO_START 0 (by decide) (by decide) rfl
    (by simp [wouldCreateCircularDependency, bfsReaches, successors,
      chainExample, exFS])

/-- C8: refuted on the source.  On the diamond (B and D depend on A, D
also depends on B), the second invocation of the scheduler on the same
root still changes D: the first invocation's outer loop overwrote D with
dates computed from the stale pre-call snapshot of B, undoing the value
the recursion had already written. -/
theorem c8_not_idempotent :
    getTask (autoScheduleDependentTasks 6
        (autoScheduleDependentTasks 6 diamondExample 0).1 0).1.tasks 2 ≠
      getTask (autoScheduleDependentTasks 6 diamondExample 0).1.tasks 2 := by
  decide

/-- C9 counterexample: removing the edge from C (id 2) to Y (id 0) leaves
every task row exactly as stored, although rescheduling Y's remaining
dependents would move the stale Z (id 1); so no rescheduling pass is run
by removeDependency. -/
theorem c9_no_reschedule_on_removal :
    getTask (removeDependency removalExample 2 0).tasks 1 =
      getTask removalExample.tasks 1 ∧
    (autoScheduleDependentTasks 4 (removeDependency removalExample 2 0) 0).1 ≠
      removeDependency removalExample 2 0 := by
  decide

/-- C9 amended: removeDependency only deletes the matching dependency
edges; every task row is left unchanged and, unlike date edits and edge
additions, no rescheduling is triggered. -/
theorem c9_remove_dependency_amended (s : ProjectState) (tid did : Nat) :
    (removeDependency s tid did).tasks = s.tasks ∧
    (∀ d : Dependency, d ∈ (removeDependency s tid did).deps ↔
      (d ∈ s.deps ∧ ¬ (d.taskId = tid ∧ d.dependsOnId = did))) := by
  refine ⟨rfl, ?_⟩
  intro d
  simp [removeDependency, List.mem_filter]
  tauto

/-- C10: for every count of at least 1 working day the advanced date
falls on a weekday, even when the input date is a weekend; for every
non-positive count the input date is returned unchanged. -/
theorem c10_advance_lands_on_weekday (d n : Int) :
    (1 ≤ n → isWeekend (addWorkingDays d n) = false) ∧
    (n ≤ 0 → addWorkingDays d n = d) := by
  constructor
  · intro hn
    have hpos : n.toNat ≠ 0 := by omega
    rcases Nat.exists_eq_succ_of_ne_zero hpos with ⟨k, hk⟩
    rw [addWorkingDays, hk]
    exact addWorkingDaysGo_succ_weekday d k
  · intro hn
    rw [addWorkingDays, Int.toNat_of_nonpos hn]
    rfl

/-- C10 witness: advancing the Saturday day 6 by one working day lands on
the weekday Monday day 8; a negative count leaves day 3 unchanged. -/
theorem c10_advance_witness :
    isWeekend (addWorkingDays 6 1) = false ∧ addWorkingDays 3 (-2) = 3 :=
  ⟨(c10_advance_lands_on_weekday 6 1).1 (by norm_num),
   (c10_advance_lands_on_weekday 3 (-2)).2 (by norm_num)⟩

end GanttSpec
